import Mathlib

/-!
Shallow embedding of the SCORM package inspector (scorm_app_v12.py):
manifest data model, namespace resolution, metadata extraction, validation,
structure building and flattening, together with theorems checking the
specification's claims against these definitions.

Conventions of the embedding:
  - an XML element is a tag (in ElementTree "Clark" notation, i.e. a
    namespace-qualified tag reads "{uri}name"), an attribute list, an
    optional text payload and a child list, in document order;
  - `ElementTree.find(path)` / `findall(path)` for the specific paths used by
    the program are modelled by the `findDesc` / `findAllDesc` /
    `findChild` / `findDescChild` / `findDescWithAttr` helpers;
  - Python `None` becomes `Option.none`; Python string truthiness (`if s:`)
    becomes "present and non-empty"; Python f-string interpolation of a
    possibly-`None` value is `pyStr`.
-/

/-- An XML element as produced by `xml.etree.ElementTree`: Clark-notation tag,
attribute assoc list, optional text, children in document order. -/
inductive XmlElem : Type where
  | mk (tag : String) (attrs : List (String × String)) (text : Option String)
      (children : List XmlElem)

def XmlElem.tag : XmlElem → String
  | .mk t _ _ _ => t

def XmlElem.attrs : XmlElem → List (String × String)
  | .mk _ a _ _ => a

def XmlElem.text : XmlElem → Option String
  | .mk _ _ x _ => x

def XmlElem.children : XmlElem → List XmlElem
  | .mk _ _ _ cs => cs

mutual

/-- Decidable equality on elements, by simultaneous recursion with child
lists (the nested inductive prevents `deriving DecidableEq`). -/
def decEqXml : (a b : XmlElem) → Decidable (a = b)
  | .mk t1 a1 x1 c1, .mk t2 a2 x2 c2 =>
    match decEq t1 t2, decEq a1 a2, decEq x1 x2, decEqXmlList c1 c2 with
    | isTrue ht, isTrue ha, isTrue hx, isTrue hc =>
      isTrue (by rw [ht, ha, hx, hc])
    | isFalse ht, _, _, _ =>
      isFalse (by simp only [XmlElem.mk.injEq]; tauto)
    | _, isFalse ha, _, _ =>
      isFalse (by simp only [XmlElem.mk.injEq]; tauto)
    | _, _, isFalse hx, _ =>
      isFalse (by simp only [XmlElem.mk.injEq]; tauto)
    | _, _, _, isFalse hc =>
      isFalse (by simp only [XmlElem.mk.injEq]; tauto)

def decEqXmlList : (as bs : List XmlElem) → Decidable (as = bs)
  | [], [] => isTrue rfl
  | _ :: _, [] => isFalse (by simp)
  | [], _ :: _ => isFalse (by simp)
  | a :: as, b :: bs =>
    match decEqXml a b, decEqXmlList as bs with
    | isTrue h1, isTrue h2 => isTrue (by rw [h1, h2])
    | isFalse h1, _ => isFalse (by simp only [List.cons.injEq]; tauto)
    | _, isFalse h2 => isFalse (by simp only [List.cons.injEq]; tauto)

end

instance : DecidableEq XmlElem := decEqXml

mutual

/-- All strict descendants of an element, in document (pre-order) order;
this is the node set visited by an ElementTree `.//tag` query. -/
def descendants : XmlElem → List XmlElem
  | .mk _ _ _ cs => descendantsList cs

def descendantsList : List XmlElem → List XmlElem
  | [] => []
  | c :: rest => c :: descendants c ++ descendantsList rest

end

/-- Python's `Element.get(name)`: the attribute's value, or `None`. -/
def attrGet (e : XmlElem) (name : String) : Option String :=
  (e.attrs.find? (fun kv => kv.1 == name)).map (·.2)

/-- Python's `Element.get(name, default)`. -/
def attrGetD (e : XmlElem) (name default : String) : String :=
  (attrGet e name).getD default

/-- How a Python f-string renders an `Optional[str]`: `None` prints as "None". -/
def pyStr : Option String → String
  | some s => s
  | none => "None"

/-- Resolution of a prefixed tag `pfx:name` against a namespace URI, as done by
ElementTree path queries: a non-empty URI gives the Clark form `{uri}name`;
the empty URI (unqualified manifest) matches the plain tag. -/
def qual (uri nm : String) : String :=
  if uri = "" then nm else "\x7b" ++ uri ++ "\x7d" ++ nm

/-- The namespace dictionary built by `parse_scorm`: three fixed URIs plus the
dynamically detected `imscp` URI. -/
structure NSMap where
  imscp : String
  adlcp : String
  imsss : String
  lom : String
deriving DecidableEq

/-- Dynamic detection of the `imscp` namespace from the root tag
(`parse_scorm`, lines 124-129): if `'}' in root.tag` then
`root.tag.split('}')[0][1:]`, else the empty string. -/
def detect_imscp (tag : String) : String :=
  if Char.ofNat 125 ∈ tag.data then
    String.mk ((tag.data.takeWhile (fun c => c ≠ Char.ofNat 125)).drop 1)
  else ""

/-- The full namespace dictionary of `parse_scorm` for a given root element. -/
def build_ns (root : XmlElem) : NSMap :=
  { imscp := detect_imscp root.tag
    adlcp := "http://www.adlnet.org/xsd/adlcp_v1p3"
    imsss := "http://www.imsglobal.org/xsd/imsss_v1p0"
    lom := "http://ltsc.ieee.org/xsd/LOM" }

/-- `root.find('.//t', ns)`: first matching descendant in document order. -/
def findDesc (e : XmlElem) (t : String) : Option XmlElem :=
  (descendants e).find? (fun d => d.tag == t)

/-- `root.findall('.//t', ns)`: all matching descendants in document order. -/
def findAllDesc (e : XmlElem) (t : String) : List XmlElem :=
  (descendants e).filter (fun d => d.tag == t)

/-- `node.find('t', ns)`: first matching direct child. -/
def findChild (e : XmlElem) (t : String) : Option XmlElem :=
  e.children.find? (fun c => c.tag == t)

/-- `node.findall('t', ns)`: all matching direct children. -/
def findAllChild (e : XmlElem) (t : String) : List XmlElem :=
  e.children.filter (fun c => c.tag == t)

/-- `node.find('.//t1/t2', ns)`: for each descendant with tag `t1` (in document
order), its direct children with tag `t2`; first result. -/
def findDescChild (e : XmlElem) (t1 t2 : String) : Option XmlElem :=
  (((descendants e).filter (fun d => d.tag == t1)).flatMap
    (fun a => a.children.filter (fun c => c.tag == t2))).head?

/-- `root.find(".//t[@a='v']", ns)`: first descendant with tag `t` whose
attribute `a` equals `v`. -/
def findDescWithAttr (e : XmlElem) (t a v : String) : Option XmlElem :=
  ((descendants e).filter (fun d => d.tag == t && attrGet d a == some v)).head?

/-- `find_text_or_default(node, path, namespaces, default)` (lines 39-43); the
path query is passed as the function `findF`.  The text is used only when
truthy (present and non-empty), and is stripped of surrounding whitespace. -/
def find_text_or_default (node : Option XmlElem) (findF : XmlElem → Option XmlElem)
    (default : String) : String :=
  match node with
  | none => default
  | some n =>
    match findF n with
    | some found =>
      match found.text with
      | some t => if t ≠ "" then t.trim else default
      | none => default
    | none => default

/-- A validation finding: severity level and human-readable message. -/
structure Finding where
  level : String
  message : String
deriving DecidableEq

/-- The broken-link message of `validate_scorm_package` (line 96). -/
def brokenLinkMsg (itemId : Option String) (ref : String) : String :=
  "Broken Link: Item \x27" ++ pyStr itemId ++
    "\x27 references non-existent resource \x27" ++ ref ++ "\x27."

/-- The missing-file message of `validate_scorm_package` (line 101). -/
def missingFileMsg (resId : Option String) (href : String) : String :=
  "Missing File: Resource \x27" ++ pyStr resId ++ "\x27 points to \x27" ++ href ++
    "\x27 which is missing from the zip."

/-- Python `href.replace('\\', '/')`: each backslash character becomes a
forward slash (character-wise map over the string's characters). -/
def normSlash (s : String) : String :=
  String.mk (s.data.map (fun c => if c == Char.ofNat 92 then Char.ofNat 47 else c))

/-- The `root.findall('.//imscp:item', ns)` node list. -/
def itemNodes (root : XmlElem) (ns : NSMap) : List XmlElem :=
  findAllDesc root (qual ns.imscp "item")

/-- The `root.findall('.//imscp:resource', ns)` node list. -/
def resourceNodes (root : XmlElem) (ns : NSMap) : List XmlElem :=
  findAllDesc root (qual ns.imscp "resource")

/-- The `identifier` attributes of all resources (`resource_ids`, line 91);
the Python value is a set, used only for membership tests. -/
def resourceIds (root : XmlElem) (ns : NSMap) : List (Option String) :=
  (resourceNodes root ns).map (fun r => attrGet r "identifier")

/-- Body of the item loop of `validate_scorm_package` (lines 93-96): a finding
when the item has a truthy `identifierref` that matches no resource id. -/
def brokenLinkCheck (resource_ids : List (Option String)) (item : XmlElem) :
    Option Finding :=
  match attrGet item "identifierref" with
  | some ref =>
    if ref ≠ "" ∧ some ref ∉ resource_ids then
      some ⟨"ERROR", brokenLinkMsg (attrGet item "identifier") ref⟩
    else none
  | none => none

/-- Body of the resource loop of `validate_scorm_package` (lines 98-101): a
finding when the resource has a truthy `href` whose slash-normalized form is
not in the archive listing. -/
def missingFileCheck (zip_files : List String) (resource : XmlElem) :
    Option Finding :=
  match attrGet resource "href" with
  | some href =>
    if href ≠ "" ∧ normSlash href ∉ zip_files then
      some ⟨"ERROR", missingFileMsg (attrGet resource "identifier") href⟩
    else none
  | none => none

/-- `validate_scorm_package(scorm_zip, root, ns)` (lines 80-103).  The zip
argument is its file listing (`scorm_zip.namelist()`). -/
def validate_scorm_package (zip_files : List String) (root : XmlElem)
    (ns : NSMap) : List Finding :=
  let sequencing_node := findDesc root (qual ns.imsss "sequencing")
  let version := if sequencing_node.isSome then "SCORM 2004" else "SCORM 1.2"
  ⟨"INFO", "Detected Version: " ++ version ++ "."⟩ ::
    ((itemNodes root ns).filterMap (brokenLinkCheck (resourceIds root ns)) ++
     (resourceNodes root ns).filterMap (missingFileCheck zip_files))

/-- A value of the metadata dictionary: a string, a count, or the nested
sequencing-rules dictionary. -/
inductive MetaVal where
  | s (v : String)
  | n (v : Nat)
  | rules (v : List (String × String))
deriving DecidableEq

/-- The Clark-notation attribute name `f"{{{ns.get('adlcp', '')}}}scormtype"`
used by `extract_metadata` (lines 63, 66, 67). -/
def scormtypeAttr (ns : NSMap) : String :=
  "\x7b" ++ ns.adlcp ++ "\x7d" ++ "scormtype"

/-- The SCO count of `extract_metadata` (line 66): resources whose
`adlcp:scormtype` attribute (defaulting to `asset`) equals `sco`. -/
def scoCount (root : XmlElem) (ns : NSMap) : Nat :=
  ((resourceNodes root ns).filter
    (fun r => attrGetD r (scormtypeAttr ns) "asset" == "sco")).length

/-- The asset count of `extract_metadata` (line 67): resources whose
`adlcp:scormtype` attribute (defaulting to `asset`) equals `asset`. -/
def assetCount (root : XmlElem) (ns : NSMap) : Nat :=
  ((resourceNodes root ns).filter
    (fun r => attrGetD r (scormtypeAttr ns) "asset" == "asset")).length

/-- `extract_metadata(root, ns)` (lines 45-78), as the key/value list of the
returned dict in insertion order.  Note that the `Passing Score`,
`Launch File`, `SCORM Type (Primary)` and `Sequencing Rules` keys are only
inserted inside conditionals, and that the sequencing conditional tests the
Python *truthiness* of the found element (`if sequencing_node:`), which for an
ElementTree element is its child count, not `is not None`. -/
def extract_metadata (root : XmlElem) (ns : NSMap) : List (String × MetaVal) :=
  let meta_node := findDesc root (qual ns.imscp "metadata")
  let descr := find_text_or_default meta_node
    (fun m => findDescChild m (qual ns.lom "description") (qual ns.lom "string")) "N/A"
  let keyw := find_text_or_default meta_node
    (fun m => findDescChild m (qual ns.lom "keyword") (qual ns.lom "string")) "N/A"
  let first_item := findDesc root (qual ns.imscp "item")
  let itemPart :=
    match first_item with
    | none => []
    | some fi =>
      let mastery := find_text_or_default (some fi)
        (fun n => findDesc n (qual ns.adlcp "masteryscore")) "N/A"
      [("Passing Score", MetaVal.s mastery)] ++
        (match attrGet fi "identifierref" with
         | some ref =>
           if ref ≠ "" then
             match findDescWithAttr root (qual ns.imscp "resource") "identifier" ref with
             | some resource_node =>
               [("Launch File", MetaVal.s (attrGetD resource_node "href" "N/A")),
                ("SCORM Type (Primary)",
                  MetaVal.s ((attrGetD resource_node (scormtypeAttr ns) "asset").toUpper))]
             | none => []
           else []
         | none => [])
  let seqPart :=
    match findDesc root (qual ns.imsss "sequencing") with
    | none => []
    | some sq =>
      if sq.children ≠ [] then
        let seq_rules :=
          match findChild sq (qual ns.imsss "controlMode") with
          | none => []
          | some cm =>
            [("Flow", if attrGet cm "flow" == some "true" then "Forced/Linear"
                      else "User Choice"),
             ("Forward Only", attrGetD cm "forwardOnly" "false")]
        [("Sequencing Rules", MetaVal.rules seq_rules)]
      else []
  [("Description", MetaVal.s descr), ("Keywords", MetaVal.s keyw)] ++ itemPart ++
    [("SCO Count", MetaVal.n (scoCount root ns)),
     ("Asset Count", MetaVal.n (assetCount root ns))] ++ seqPart

/-- A node of the parsed course structure: the dict built by `parse_items`
(lines 148-153). -/
inductive ItemNode : Type where
  | mk (identifier : Option String) (title : String) (resource_href : Option String)
      (sub_items : List ItemNode)

def ItemNode.identifier : ItemNode → Option String
  | .mk i _ _ _ => i

def ItemNode.title : ItemNode → String
  | .mk _ t _ _ => t

def ItemNode.resource_href : ItemNode → Option String
  | .mk _ _ r _ => r

def ItemNode.sub_items : ItemNode → List ItemNode
  | .mk _ _ _ s => s

/-- The `resources` dict of `parse_scorm` (line 136):
`{res.get('identifier'): res.get('href') for res in root.findall('.//imscp:resource', ns)}`,
as an assoc list in document order (later duplicate keys overwrite). -/
def resourcesDict (root : XmlElem) (ns : NSMap) :
    List (Option String × Option String) :=
  (resourceNodes root ns).map (fun r => (attrGet r "identifier", attrGet r "href"))

/-- Python `resources.get(k)` on the dict above: value of the last binding of
`k`, or `None`; a stored `None` value and a missing key are indistinguishable. -/
def dictLookup (d : List (Option String × Option String)) (k : Option String) :
    Option String :=
  match d.reverse.find? (fun kv => kv.1 == k) with
  | some kv => kv.2
  | none => none

mutual

/-- `parse_items(parent_element)` (lines 145-154): one node per direct
`imscp:item` child, in document order. -/
def parse_items (ns : NSMap) (res : List (Option String × Option String)) :
    XmlElem → List ItemNode
  | .mk _ _ _ cs => parse_items_go ns res cs

/-- The loop of `parse_items` over the `findall('imscp:item', ns)` children. -/
def parse_items_go (ns : NSMap) (res : List (Option String × Option String)) :
    List XmlElem → List ItemNode
  | [] => []
  | c :: rest =>
    (if c.tag == qual ns.imscp "item" then
      [ItemNode.mk (attrGet c "identifier")
        (find_text_or_default (some c) (fun e => findChild e (qual ns.imscp "title"))
          "No Title")
        (dictLookup res (attrGet c "identifierref"))
        (parse_items ns res c)]
     else []) ++ parse_items_go ns res rest

end

/-- The analysis dict returned by `parse_scorm` (lines 141 and 156-163); the
`structure` key is named `tree` here (`structure` is a Lean keyword). -/
structure AnalysisResult where
  source : String
  course_title : String
  tree : List ItemNode
  metadata : List (String × MetaVal)
  validation : List Finding
  raw_manifest : String

/-- The core of `parse_scorm` (lines 117-163), once the archive has been read
and the manifest parsed: namespace detection, validation, metadata extraction
and structure building over the parsed root.  `zip_files` is the archive
listing, `raw_xml_string` the decoded manifest text. -/
def parse_scorm_core (zip_files : List String) (root : XmlElem)
    (raw_xml_string source_name : String) : AnalysisResult :=
  let ns := build_ns root
  let validation_results := validate_scorm_package zip_files root ns
  let metadata := extract_metadata root ns
  let resources := resourcesDict root ns
  match findDesc root (qual ns.imscp "organization") with
  | none =>
    { source := source_name, course_title := "Unknown", tree := [],
      metadata := metadata, validation := validation_results,
      raw_manifest := raw_xml_string }
  | some org_element =>
    { source := source_name
      course_title := find_text_or_default (some org_element)
        (fun e => findChild e (qual ns.imscp "title")) "Untitled Course"
      tree := parse_items ns resources org_element
      metadata := metadata
      validation := validation_results
      raw_manifest := raw_xml_string }

/-- A row of the flattened content map: the dict appended at line 174. -/
structure Row where
  Path : String
  File : String
  Identifier : Option String
deriving DecidableEq

mutual

/-- `flatten_structure(items, parent_title)` (lines 170-176): pre-order walk
emitting one row per node with a truthy `resource_href`. -/
def flatten_structure : List ItemNode → String → List Row
  | [], _ => []
  | item :: rest, parent_title =>
    flatten_item item parent_title ++ flatten_structure rest parent_title

/-- One iteration of the `flatten_structure` loop (lines 172-175): the row of
the item when its `resource_href` is truthy (its path is
`current_title = parent_title + title`), followed by the recursively flattened
sub-items (with `current_title + " -> "` as the new prefix) when non-empty. -/
def flatten_item : ItemNode → String → List Row
  | .mk idf ti rh subs, parent_title =>
    (match rh with
     | some h => if h ≠ "" then [⟨parent_title ++ ti, h, idf⟩] else []
     | none => []) ++
    (if subs.isEmpty then []
     else flatten_structure subs (parent_title ++ ti ++ " -> "))

end

/-- Spec-side join of a title list by the separator `" -> "`. -/
def joinTitles : List String → String
  | [] => ""
  | [t] => t
  | t :: rest => t ++ " -> " ++ joinTitles rest

/-- The accumulated `parent_title` argument corresponding to an ancestor-title
list: every ancestor title followed by the separator. -/
def joinAnc : List String → String
  | [] => ""
  | t :: rest => t ++ " -> " ++ joinAnc rest

mutual

/-- Modelled from the spec (Flattener, section 4.6): the flat row sequence a
pre-order traversal should produce, carrying the ancestor-title list
explicitly; one row per node with a truthy resolved file, whose path is the
ancestor titles plus the node's own title joined by `" -> "`. -/
def rowsFromSpec : List String → List ItemNode → List Row
  | _, [] => []
  | anc, item :: rest => rowsFromSpecItem anc item ++ rowsFromSpec anc rest

/-- Rows contributed by one node in the spec-side pre-order traversal: its own
row when file-bearing, then its descendants' rows. -/
def rowsFromSpecItem : List String → ItemNode → List Row
  | anc, .mk idf ti rh subs =>
    (match rh with
     | some h => if h ≠ "" then [⟨joinTitles (anc ++ [ti]), h, idf⟩] else []
     | none => []) ++ rowsFromSpec (anc ++ [ti]) subs

end

mutual

/-- Modelled from the spec (section 8, round-trip property): the
(identifier, file) pairs of a pre-order traversal of the structure tree
restricted to file-bearing nodes. -/
def fileNodes : List ItemNode → List (Option String × String)
  | [] => []
  | item :: rest => fileNodesItem item ++ fileNodes rest

/-- Pairs contributed by one node in the pre-order traversal. -/
def fileNodesItem : ItemNode → List (Option String × String)
  | .mk idf _ rh subs =>
    (match rh with
     | some h => if h ≠ "" then [(idf, h)] else []
     | none => []) ++ fileNodes subs

end

/-- Characters before the first occurrence of `sep` form the first segment. -/
theorem takeWhile_append_sep (sep : Char) :
    ∀ (l r : List Char), sep ∉ l →
      (l ++ sep :: r).takeWhile (fun c => c ≠ sep) = l := by
  intro l
  induction l with
  | nil => intro r _; simp
  | cons c cs ih =>
    intro r hmem
    have hc : c ≠ sep := fun h => hmem (h ▸ List.mem_cons_self c cs)
    have hcs : sep ∉ cs := fun h => hmem (List.mem_cons_of_mem c h)
    rw [List.cons_append, List.takeWhile_cons, decide_eq_true hc]
    simp only [if_true]
    rw [ih r hcs]

/-- C1: for every manifest whose root element tag carries a brace-enclosed
namespace (a tag of the form `{URI}name`, stated here at the character level:
the tag is an opening brace, then the URI, then a closing brace, then the
local name, with no closing brace inside the URI), the resolved `imscp` entry
of the namespace map equals exactly that URI, byte for byte; for every
manifest whose root tag carries no such namespace (no closing brace in the
tag, as is the case for every unqualified XML name), the resolved `imscp`
entry is the empty string. -/
theorem imscp_namespace_resolution (uri nm tag qtag : String)
    (hshape : qtag.data = Char.ofNat 123 :: (uri.data ++ Char.ofNat 125 :: nm.data))
    (hu : Char.ofNat 125 ∉ uri.data) (ht : Char.ofNat 125 ∉ tag.data) :
    detect_imscp qtag = uri ∧ detect_imscp tag = "" := by
  constructor
  · unfold detect_imscp
    rw [hshape]
    have hmem : Char.ofNat 125 ∈
        Char.ofNat 123 :: (uri.data ++ Char.ofNat 125 :: nm.data) :=
      List.mem_cons_of_mem _ (List.mem_append_right _ (List.mem_cons_self _ _))
    rw [if_pos hmem]
    have h123 : (Char.ofNat 123) ≠ (Char.ofNat 125) := by decide
    have htail : Char.ofNat 125 ∉ (Char.ofNat 123 :: uri.data) := by
      intro h
      rcases List.mem_cons.mp h with h | h
      · exact h123 h.symm
      · exact hu h
    have hta := takeWhile_append_sep (Char.ofNat 125) (Char.ofNat 123 :: uri.data)
      nm.data htail
    simp only [List.cons_append] at hta
    rw [hta]
    simp
  · unfold detect_imscp
    rw [if_neg ht]

/-! Concrete example documents used by witnesses and counterexamples. -/

/-- A well-formed but empty manifest: no items, no resources, no organization. -/
def exNoOrg : XmlElem := .mk "manifest" [] none []

/-- A manifest whose only resource declares an `adlcp:scormtype` that is
neither `sco` nor `asset`. -/
def exResourceUnknownType : XmlElem :=
  .mk "manifest" [] none
    [.mk "resources" [] none
      [.mk "resource" [("identifier", "R1"),
         ("\x7bhttp://www.adlnet.org/xsd/adlcp_v1p3\x7dscormtype", "unknown")] none []]]

/-- A manifest with one `sco` resource and one resource with no type attribute. -/
def exScoAsset : XmlElem :=
  .mk "manifest" [] none
    [.mk "resources" [] none
      [.mk "resource" [("identifier", "R1"),
         ("\x7bhttp://www.adlnet.org/xsd/adlcp_v1p3\x7dscormtype", "sco")] none [],
       .mk "resource" [("identifier", "R2")] none []]]

/-- A manifest containing a childless `imsss:sequencing` element. -/
def exEmptySequencing : XmlElem :=
  .mk "manifest" [] none
    [.mk "\x7bhttp://www.imsglobal.org/xsd/imsss_v1p0\x7dsequencing" [] none []]

/-- A manifest whose single item has no `identifierref` and whose single
resource has an `href` but no `identifier` attribute. -/
def exAnonymousResource : XmlElem :=
  .mk "manifest" [] none
    [.mk "organizations" [] none
      [.mk "organization" [] none
        [.mk "item" [("identifier", "ITEM1")] none []]],
     .mk "resources" [] none
      [.mk "resource" [("href", "content/a.html")] none []]]

/-- A manifest with one item referencing a non-existent resource `RES9`. -/
def exBrokenRef : XmlElem :=
  .mk "manifest" [] none
    [.mk "organizations" [] none
      [.mk "organization" [] none
        [.mk "item" [("identifier", "ITEM1"), ("identifierref", "RES9")] none []]],
     .mk "resources" [] none
      [.mk "resource" [("identifier", "RES1"), ("href", "index.html")] none []]]

/-- A manifest whose resource points (with a backslash path) at a file that is
not in the archive listing. -/
def exMissingFile : XmlElem :=
  .mk "manifest" [] none
    [.mk "resources" [] none
      [.mk "resource" [("identifier", "RES1"),
         ("href", "content\x5cindex.html")] none []]]

/-- An organization element with a single item whose reference is broken. -/
def exOrgParent : XmlElem :=
  .mk "organization" [] none
    [.mk "item" [("identifier", "I1"), ("identifierref", "MISSING")] none []]

/-- The single item of `exOrgParent`. -/
def exItemBroken : XmlElem :=
  .mk "item" [("identifier", "I1"), ("identifierref", "MISSING")] none []

/-- A resources dict with one identified resource. -/
def exResList : List (Option String × Option String) := [(some "R1", some "a.html")]

theorem empty_append_str (s : String) : "" ++ s = s := by
  apply String.ext
  rw [String.data_append]
  rfl

theorem append_empty_str (s : String) : s ++ "" = s := by
  apply String.ext
  rw [String.data_append]
  simp

theorem joinAnc_append : ∀ (l : List String) (x : String),
    joinAnc (l ++ [x]) = joinAnc l ++ (x ++ " -> ")
  | [], x => by
    simp only [List.nil_append, joinAnc]
    rw [append_empty_str, empty_append_str]
  | t :: l, x => by
    simp only [List.cons_append, joinAnc, List.append_eq, joinAnc_append l x,
      String.append_assoc]

theorem joinTitles_append : ∀ (l : List String) (x : String),
    joinTitles (l ++ [x]) = joinAnc l ++ x
  | [], x => by
    simp only [List.nil_append, joinTitles, joinAnc]
    rw [empty_append_str]
  | [t], x => by
    simp only [List.cons_append, List.nil_append, joinTitles, joinAnc]
    rw [append_empty_str, String.append_assoc]
  | t :: y :: ys, x => by
    have ih := joinTitles_append (y :: ys) x
    simp only [List.cons_append] at ih ⊢
    rw [joinTitles]
    · rw [ih]
      simp only [joinAnc, String.append_assoc]
    · simp

theorem flatten_skip_empty (subs : List ItemNode) (p : String) :
    (if subs.isEmpty then [] else flatten_structure subs p) =
      flatten_structure subs p := by
  cases subs <;> simp [flatten_structure]

mutual

theorem flatten_eq_rowsFromSpec : ∀ (items : List ItemNode) (anc : List String),
    flatten_structure items (joinAnc anc) = rowsFromSpec anc items
  | [], anc => rfl
  | item :: rest, anc => by
    rw [flatten_structure, rowsFromSpec, flatten_item_eq item anc,
      flatten_eq_rowsFromSpec rest anc]

theorem flatten_item_eq : ∀ (item : ItemNode) (anc : List String),
    flatten_item item (joinAnc anc) = rowsFromSpecItem anc item
  | .mk idf ti rh subs, anc => by
    have h1 := flatten_eq_rowsFromSpec subs (anc ++ [ti])
    rw [joinAnc_append, ← String.append_assoc] at h1
    simp only [flatten_item, rowsFromSpecItem, flatten_skip_empty, h1,
      joinTitles_append]
    rcases subs with _ | ⟨a, as⟩
    · simp [rowsFromSpec]
    · simp

end

mutual

theorem rowsFromSpec_pairs : ∀ (anc : List String) (items : List ItemNode),
    (rowsFromSpec anc items).map (fun r => (r.Identifier, r.File)) =
      fileNodes items
  | _, [] => rfl
  | anc, item :: rest => by
    rw [rowsFromSpec, fileNodes, List.map_append,
      rowsFromSpecItem_pairs anc item, rowsFromSpec_pairs anc rest]

theorem rowsFromSpecItem_pairs : ∀ (anc : List String) (item : ItemNode),
    (rowsFromSpecItem anc item).map (fun r => (r.Identifier, r.File)) =
      fileNodesItem item
  | anc, .mk idf ti rh subs => by
    simp only [rowsFromSpecItem, fileNodesItem, List.map_append,
      rowsFromSpec_pairs (anc ++ [ti]) subs]
    rcases rh with _ | h
    · rfl
    · by_cases hh : h = "" <;> simp [hh]

end

/-- C8: the Flattener\'s output on a structure tree is the pre-order flat row
sequence described by the spec: `rowsFromSpec` (defined from the spec\'s words)
emits, in pre-order, exactly one row per node with a truthy resolved file,
whose `Path` is the node\'s ancestor titles plus its own title joined by
`" -> "` in root-to-leaf order; consequently the row count equals the number
of file-bearing nodes and the sequence of (identifier, file) pairs equals the
pre-order traversal of the tree restricted to file-bearing nodes. -/
theorem flatten_structure_spec (items : List ItemNode) :
    flatten_structure items "" = rowsFromSpec [] items ∧
    (flatten_structure items "").map (fun r => (r.Identifier, r.File)) =
      fileNodes items ∧
    (flatten_structure items "").length = (fileNodes items).length := by
  have h : flatten_structure items "" = rowsFromSpec [] items :=
    flatten_eq_rowsFromSpec items []
  refine ⟨h, ?_, ?_⟩
  · rw [h, rowsFromSpec_pairs]
  · rw [h, ← rowsFromSpec_pairs [] items]
    simp

theorem brokenLinkCheck_eq_some (ids : List (Option String)) (item : XmlElem)
    (f : Finding) (h : brokenLinkCheck ids item = some f) :
    ∃ ref, attrGet item "identifierref" = some ref ∧ ref ≠ "" ∧
      some ref ∉ ids ∧ f = ⟨"ERROR", brokenLinkMsg (attrGet item "identifier") ref⟩ := by
  unfold brokenLinkCheck at h
  split at h
  case _ ref heq =>
    split at h
    case isTrue hc =>
      cases h
      exact ⟨ref, heq, hc.1, hc.2, rfl⟩
    case isFalse hc => cases h
  case _ heq => cases h

theorem missingFileCheck_eq_some (zip_files : List String) (resource : XmlElem)
    (f : Finding) (h : missingFileCheck zip_files resource = some f) :
    ∃ href, attrGet resource "href" = some href ∧ href ≠ "" ∧
      normSlash href ∉ zip_files ∧
      f = ⟨"ERROR", missingFileMsg (attrGet resource "identifier") href⟩ := by
  unfold missingFileCheck at h
  split at h
  case _ href heq =>
    split at h
    case isTrue hc =>
      cases h
      exact ⟨href, heq, hc.1, hc.2, rfl⟩
    case isFalse hc => cases h
  case _ heq => cases h

/-- Every finding emitted by the two validation loops carries level ERROR. -/
theorem validate_tail_error (zip_files : List String) (root : XmlElem) (ns : NSMap) :
    ∀ f ∈ (itemNodes root ns).filterMap (brokenLinkCheck (resourceIds root ns)) ++
        (resourceNodes root ns).filterMap (missingFileCheck zip_files),
      f.level = "ERROR" := by
  intro f hf
  rcases List.mem_append.mp hf with hf | hf
  · rcases List.mem_filterMap.mp hf with ⟨a, _, ha⟩
    rcases brokenLinkCheck_eq_some _ _ _ ha with ⟨_, _, _, _, hfe⟩
    rw [hfe]
  · rcases List.mem_filterMap.mp hf with ⟨a, _, ha⟩
    rcases missingFileCheck_eq_some _ _ _ ha with ⟨_, _, _, _, hfe⟩
    rw [hfe]

/-- C4: on every archive listing, parsed tree and namespace map, the Validator
returns a findings list (total function, no exception) whose first entry is
the single INFO finding, reading "SCORM 2004" exactly when a sequencing node
exists anywhere in the document and "SCORM 1.2" otherwise; every other finding
has level ERROR, and no finding ever has level WARNING. -/
theorem validator_findings_shape (zip_files : List String) (root : XmlElem)
    (ns : NSMap) :
    (validate_scorm_package zip_files root ns).head? =
      some ⟨"INFO", "Detected Version: " ++
        (if ∃ d ∈ descendants root, d.tag = qual ns.imsss "sequencing"
         then "SCORM 2004" else "SCORM 1.2") ++ "."⟩ ∧
    ((validate_scorm_package zip_files root ns).filter
        (fun f => f.level == "INFO")).length = 1 ∧
    (∀ f ∈ (validate_scorm_package zip_files root ns).tail, f.level = "ERROR") ∧
    (∀ f ∈ validate_scorm_package zip_files root ns, f.level ≠ "WARNING") := by
  have hcond : (findDesc root (qual ns.imsss "sequencing")).isSome =
      (if ∃ d ∈ descendants root, d.tag = qual ns.imsss "sequencing"
       then true else false) := by
    unfold findDesc
    by_cases hex : ∃ d ∈ descendants root, d.tag = qual ns.imsss "sequencing"
    · rw [if_pos hex]
      rw [List.find?_isSome]
      rcases hex with ⟨d, hd, ht⟩
      exact ⟨d, hd, by simp [ht]⟩
    · rw [if_neg hex]
      rw [Bool.eq_false_iff]
      intro hs
      rcases List.find?_isSome.mp hs with ⟨d, hd, ht⟩
      exact hex ⟨d, hd, by simpa using ht⟩
  have hversion :
      (if (findDesc root (qual ns.imsss "sequencing")).isSome = true
       then "SCORM 2004" else "SCORM 1.2") =
      (if ∃ d ∈ descendants root, d.tag = qual ns.imsss "sequencing"
       then "SCORM 2004" else "SCORM 1.2") := by
    by_cases hex : ∃ d ∈ descendants root, d.tag = qual ns.imsss "sequencing"
    · simp [hcond, hex]
    · simp [hcond, hex]
  have htail := validate_tail_error zip_files root ns
  refine ⟨?_, ?_, ?_, ?_⟩
  · unfold validate_scorm_package
    rw [List.head?_cons, hversion]
  · unfold validate_scorm_package
    simp only [List.filter_cons]
    have h2 : (((itemNodes root ns).filterMap (brokenLinkCheck (resourceIds root ns)) ++
        (resourceNodes root ns).filterMap (missingFileCheck zip_files)).filter
          (fun f => f.level == "INFO")) = [] := by
      rw [List.filter_eq_nil_iff]
      intro f hf
      simp [htail f hf]
    simp [h2]
  · unfold validate_scorm_package
    intro f hf
    exact htail f (by simpa using hf)
  · unfold validate_scorm_package
    intro f hf
    rcases List.mem_cons.mp hf with hf | hf
    · rw [hf]; simp
    · rw [htail f hf]; simp

/-- C9: for every parsed manifest with no organization element, the analysis
still returns a degraded partial result: the full metadata record and the full
validation findings (computed exactly as for any other manifest), an empty
structure sequence, the raw manifest text, and the placeholder course title
"Unknown". -/
theorem parse_scorm_missing_org (zip_files : List String) (root : XmlElem)
    (raw src : String)
    (h : findDesc root (qual (build_ns root).imscp "organization") = none) :
    parse_scorm_core zip_files root raw src =
      { source := src, course_title := "Unknown", tree := [],
        metadata := extract_metadata root (build_ns root),
        validation := validate_scorm_package zip_files root (build_ns root),
        raw_manifest := raw } := by
  simp only [parse_scorm_core]
  rw [h]

/-- Witness for C9 at a concrete organization-free manifest. -/
theorem parse_scorm_missing_org_witness :
    parse_scorm_core ["index.html"] exNoOrg "<manifest/>" "pkg.zip" =
      { source := "pkg.zip", course_title := "Unknown", tree := [],
        metadata := extract_metadata exNoOrg (build_ns exNoOrg),
        validation := validate_scorm_package ["index.html"] exNoOrg (build_ns exNoOrg),
        raw_manifest := "<manifest/>" } :=
  parse_scorm_missing_org ["index.html"] exNoOrg "<manifest/>" "pkg.zip" (by decide)

theorem length_filter_partition {α} (p q : α → Bool)
    (hne : ∀ a, ¬(p a = true ∧ q a = true)) :
    ∀ l : List α, (∀ a ∈ l, p a = true ∨ q a = true) →
      (l.filter p).length + (l.filter q).length = l.length
  | [], _ => rfl
  | a :: t, h => by
    have ht := length_filter_partition p q hne t (fun b hb => h b (List.mem_cons_of_mem a hb))
    have ha := h a (List.mem_cons_self a t)
    rcases ha with ha | ha
    · have hqa : q a = false := by
        rcases hqa : q a with _ | _
        · rfl
        · exact absurd ⟨ha, hqa⟩ (hne a)
      simp [List.filter_cons, ha, hqa, ht]
      omega
    · have hpa : p a = false := by
        rcases hpa : p a with _ | _
        · rfl
        · exact absurd ⟨hpa, ha⟩ (hne a)
      simp [List.filter_cons, ha, hpa, ht]
      omega

/-- C5 (amended): SCO Count plus Asset Count equals the total number of
resource elements for every manifest in which each resource's `scormtype`
attribute, when present, is either `sco` or `asset`; a resource with any other
explicit `scormtype` value is counted by the Metadata Extractor as neither a
SCO nor an asset, so the unconditional claim fails (see the counterexample). -/
theorem sco_asset_partition (root : XmlElem) (ns : NSMap)
    (h : ∀ r ∈ resourceNodes root ns,
      attrGetD r (scormtypeAttr ns) "asset" = "sco" ∨
      attrGetD r (scormtypeAttr ns) "asset" = "asset") :
    scoCount root ns + assetCount root ns = (resourceNodes root ns).length ∧
    ("SCO Count", MetaVal.n (scoCount root ns)) ∈ extract_metadata root ns ∧
    ("Asset Count", MetaVal.n (assetCount root ns)) ∈ extract_metadata root ns := by
  refine ⟨?_, ?_, ?_⟩
  · unfold scoCount assetCount
    apply length_filter_partition
    · intro r ⟨h1, h2⟩
      rw [beq_iff_eq] at h1 h2
      rw [h1] at h2
      simp at h2
    · intro r hr
      rcases h r hr with hh | hh <;> simp [hh]
  · unfold extract_metadata
    simp [List.mem_append]
  · unfold extract_metadata
    simp [List.mem_append]

/-- Witness for C5 (amended) at a manifest with one `sco` resource and one
default (`asset`) resource. -/
theorem sco_asset_partition_witness :
    scoCount exScoAsset (build_ns exScoAsset) +
        assetCount exScoAsset (build_ns exScoAsset) =
      (resourceNodes exScoAsset (build_ns exScoAsset)).length ∧
    ("SCO Count", MetaVal.n (scoCount exScoAsset (build_ns exScoAsset))) ∈
      extract_metadata exScoAsset (build_ns exScoAsset) ∧
    ("Asset Count", MetaVal.n (assetCount exScoAsset (build_ns exScoAsset))) ∈
      extract_metadata exScoAsset (build_ns exScoAsset) :=
  sco_asset_partition exScoAsset (build_ns exScoAsset) (by decide)

/-- Counterexample to C5 as stated: a manifest whose single resource has
`scormtype="unknown"` is counted as neither SCO nor asset, so SCO Count plus
Asset Count is 0 while the manifest has 1 resource element. -/
theorem sco_asset_sum_counterexample :
    scoCount exResourceUnknownType (build_ns exResourceUnknownType) +
        assetCount exResourceUnknownType (build_ns exResourceUnknownType) = 0 ∧
    (resourceNodes exResourceUnknownType (build_ns exResourceUnknownType)).length
        = 1 ∧
    ("SCO Count", MetaVal.n 0) ∈
      extract_metadata exResourceUnknownType (build_ns exResourceUnknownType) ∧
    ("Asset Count", MetaVal.n 0) ∈
      extract_metadata exResourceUnknownType (build_ns exResourceUnknownType) := by
  decide

/-- Counterexample to C6 as stated: on a manifest with no item element the
Metadata Extractor omits the `Passing Score`, `Launch File` and
`SCORM Type (Primary)` keys from the returned record entirely instead of
inserting them with a `N/A` sentinel. -/
theorem metadata_key_omitted_counterexample :
    "Passing Score" ∉ (extract_metadata exNoOrg (build_ns exNoOrg)).map Prod.fst ∧
    "Launch File" ∉ (extract_metadata exNoOrg (build_ns exNoOrg)).map Prod.fst ∧
    "SCORM Type (Primary)" ∉
      (extract_metadata exNoOrg (build_ns exNoOrg)).map Prod.fst := by
  decide

/-- C6 (amended): the Metadata record's key sequence is exactly:
`Description` and `Keywords` always (with the `N/A` sentinel when their source
nodes are absent); `Passing Score` only when the document has an item element
(then with the `N/A` sentinel when the mastery score is absent); `Launch File`
and `SCORM Type (Primary)` only when the first item additionally carries a
non-empty `identifierref` that resolves to a resource element; `SCO Count` and
`Asset Count` always; `Sequencing Rules` only when the document has a
sequencing element with at least one child.  Keys whose prerequisite node is
missing are omitted, not defaulted.  (The hypothesis excludes a single quote
inside the first item's reference, since the source code interpolates that
reference into an XPath predicate and would raise on the quote instead of
returning a record.) -/
theorem metadata_keys_amended (root : XmlElem) (ns : NSMap)
    (_hq : ∀ fi ∈ (findDesc root (qual ns.imscp "item")).toList,
      ∀ ref ∈ (attrGet fi "identifierref").toList, Char.ofNat 39 ∉ ref.data) :
    (extract_metadata root ns).map Prod.fst =
      ["Description", "Keywords"] ++
      (match findDesc root (qual ns.imscp "item") with
       | none => []
       | some fi => "Passing Score" ::
         (match attrGet fi "identifierref" with
          | some ref =>
            if ref ≠ "" then
              (match findDescWithAttr root (qual ns.imscp "resource") "identifier" ref with
               | some _ => ["Launch File", "SCORM Type (Primary)"]
               | none => [])
            else []
          | none => [])) ++
      ["SCO Count", "Asset Count"] ++
      (match findDesc root (qual ns.imsss "sequencing") with
       | none => []
       | some sq => if sq.children ≠ [] then ["Sequencing Rules"] else []) := by
  unfold extract_metadata
  rcases hfi : findDesc root (qual ns.imscp "item") with _ | fi
  · rcases hsq : findDesc root (qual ns.imsss "sequencing") with _ | sq
    · simp [hfi, hsq]
    · by_cases hch : sq.children = [] <;> simp [hfi, hsq, hch]
  · rcases hrf : attrGet fi "identifierref" with _ | ref
    · rcases hsq : findDesc root (qual ns.imsss "sequencing") with _ | sq
      · simp [hfi, hrf, hsq]
      · by_cases hch : sq.children = [] <;> simp [hfi, hrf, hsq, hch]
    · by_cases hre : ref = ""
      · rcases hsq : findDesc root (qual ns.imsss "sequencing") with _ | sq
        · simp [hfi, hrf, hre, hsq]
        · by_cases hch : sq.children = [] <;> simp [hfi, hrf, hre, hsq, hch]
      · rcases hfr : findDescWithAttr root (qual ns.imscp "resource") "identifier" ref
            with _ | rn
        · rcases hsq : findDesc root (qual ns.imsss "sequencing") with _ | sq
          · simp [hfi, hrf, hre, hfr, hsq]
          · by_cases hch : sq.children = [] <;> simp [hfi, hrf, hre, hfr, hsq, hch]
        · rcases hsq : findDesc root (qual ns.imsss "sequencing") with _ | sq
          · simp [hfi, hrf, hre, hfr, hsq]
          · by_cases hch : sq.children = [] <;> simp [hfi, hrf, hre, hfr, hsq, hch]

/-- Witness for C6 (amended) at a manifest whose item has an unresolvable
reference: the key list contains `Passing Score` but not `Launch File`. -/
theorem metadata_keys_amended_witness :
    (extract_metadata exBrokenRef (build_ns exBrokenRef)).map Prod.fst =
      ["Description", "Keywords", "Passing Score", "SCO Count", "Asset Count"] := by
  have h := metadata_keys_amended exBrokenRef (build_ns exBrokenRef) (by decide)
  rw [h]
  decide

/-- C7 as a code bug, exhibited: the manifest `exEmptySequencing` contains a
sequencing element (so the Validator's version heuristic reports SCORM 2004),
yet because that element has no children the Python truthiness test
`if sequencing_node:` is false and `extract_metadata` omits the
`Sequencing Rules` key that the spec requires whenever a sequencing node
exists anywhere in the document. -/
theorem sequencing_truthiness_divergence :
    (∃ d ∈ descendants exEmptySequencing,
      d.tag = qual (build_ns exEmptySequencing).imsss "sequencing") ∧
    "Sequencing Rules" ∉
      (extract_metadata exEmptySequencing (build_ns exEmptySequencing)).map
        Prod.fst ∧
    (validate_scorm_package [] exEmptySequencing
        (build_ns exEmptySequencing)).head? =
      some ⟨"INFO", "Detected Version: SCORM 2004."⟩ := by
  decide

/-- Counterexample to C10 as stated: in `exAnonymousResource` the single item
has no `identifierref` at all, yet its node's resolved file is not the absent
value: the resources dict is keyed by `res.get('identifier')`, so the
identifier-less resource is stored under the `None` key and
`resources.get(item.get('identifierref'))` returns its href. -/
theorem structure_null_ref_counterexample :
    ((parse_scorm_core [] exAnonymousResource "<xml/>" "pkg").tree).map
        ItemNode.resource_href = [some "content/a.html"] := by
  decide

/-- C10 (amended): the Structure Builder is total (never raises) and, for an
item child of the processed element, produces a node carrying the dict lookup
of its reference: the resolved file is the absent value whenever the item's
`identifierref` matches no stored resource key; in particular a present
reference matching no resource identifier yields an absent file, and an item
with no `identifierref` yields an absent file provided every resource carries
an identifier attribute (otherwise the `None`-keyed resource's href is
returned, as the counterexample shows); a node with an absent file yields no
Flattener row while its title still prefixes its descendants' paths. -/
theorem structure_builder_tolerates_broken_refs
    (ns : NSMap) (res : List (Option String × Option String)) (parent c : XmlElem)
    (hmem : c ∈ parent.children) (htag : c.tag = qual ns.imscp "item") :
    (∃ node ∈ parse_items ns res parent,
        node.identifier = attrGet c "identifier" ∧
        node.resource_href = dictLookup res (attrGet c "identifierref")) ∧
    (∀ ref, (∀ kv ∈ res, kv.1 ≠ some ref) → dictLookup res (some ref) = none) ∧
    ((∀ kv ∈ res, kv.1 ≠ none) → dictLookup res none = none) ∧
    (∀ idf ti subs rest pt,
        flatten_structure (ItemNode.mk idf ti none subs :: rest) pt =
          flatten_structure subs (pt ++ ti ++ " -> ") ++
            flatten_structure rest pt) := by
  refine ⟨?_, ?_, ?_, ?_⟩
  · rcases parent with ⟨t, a, x, cs⟩
    simp only [XmlElem.children] at hmem
    rw [parse_items]
    revert hmem
    induction cs with
    | nil => intro hmem; cases hmem
    | cons d ds ih =>
      intro hmem
      rw [parse_items_go]
      rcases List.mem_cons.mp hmem with hd | hd
      · subst hd
        have hb : (c.tag == qual ns.imscp "item") = true := by simp [htag]
        rw [hb]
        refine ⟨ItemNode.mk (attrGet c "identifier")
            (find_text_or_default (some c)
              (fun e => findChild e (qual ns.imscp "title")) "No Title")
            (dictLookup res (attrGet c "identifierref"))
            (parse_items ns res c), ?_, rfl, rfl⟩
        simp
      · rcases ih hd with ⟨node, hn, h1, h2⟩
        exact ⟨node, List.mem_append_right _ hn, h1, h2⟩
  · intro ref hall
    unfold dictLookup
    have hfind : res.reverse.find? (fun kv => kv.1 == some ref) = none := by
      rw [List.find?_eq_none]
      intro kv hkv
      simp [hall kv (List.mem_reverse.mp hkv)]
    rw [hfind]
  · intro hall
    unfold dictLookup
    have hfind : res.reverse.find? (fun kv => kv.1 == none) = none := by
      rw [List.find?_eq_none]
      intro kv hkv
      simp [hall kv (List.mem_reverse.mp hkv)]
    rw [hfind]
  · intro idf ti subs rest pt
    rw [flatten_structure, flatten_item, flatten_skip_empty]
    rfl

theorem sep_split (sep : Char) :
    ∀ (a b r s : List Char), sep ∉ a → sep ∉ b →
      a ++ sep :: r = b ++ sep :: s → a = b ∧ r = s
  | [], [], r, s, _, _, h => by
    simp only [List.nil_append, List.cons.injEq, true_and] at h
    exact ⟨rfl, h⟩
  | [], d :: b, r, s, _, hb, h => by
    simp only [List.nil_append, List.cons_append, List.cons.injEq] at h
    exact absurd (h.1 ▸ List.mem_cons_self d b) hb
  | c :: a, [], r, s, ha, _, h => by
    simp only [List.nil_append, List.cons_append, List.cons.injEq] at h
    exact absurd (h.1.symm ▸ List.mem_cons_self c a) ha
  | c :: a, d :: b, r, s, ha, hb, h => by
    simp only [List.cons_append, List.cons.injEq] at h
    have ih := sep_split sep a b r s
      (fun hx => ha (List.mem_cons_of_mem c hx))
      (fun hx => hb (List.mem_cons_of_mem d hx)) h.2
    exact ⟨by rw [h.1, ih.1], ih.2⟩

/-- A broken-link message determines the rendered item identifier and the
reference, provided the rendered identifiers contain no single quote (the
message delimiter). -/
theorem brokenLinkMsg_inj (i i' : Option String) (r r' : String)
    (hi : Char.ofNat 39 ∉ (pyStr i).data) (hi' : Char.ofNat 39 ∉ (pyStr i').data)
    (h : brokenLinkMsg i r = brokenLinkMsg i' r') :
    pyStr i = pyStr i' ∧ r = r' := by
  have hd := congrArg String.data h
  unfold brokenLinkMsg at hd
  simp only [String.data_append, List.append_assoc, List.cons_append,
    List.nil_append, List.cons.injEq, true_and] at hd
  obtain ⟨h1, h2⟩ := sep_split _ _ _ _ _ hi hi' hd
  refine ⟨String.ext h1, ?_⟩
  simp only [List.cons.injEq, true_and] at h2
  exact String.ext (List.append_cancel_right h2)

/-- A missing-file message determines the rendered resource identifier and the
href, provided the rendered identifiers contain no single quote. -/
theorem missingFileMsg_inj (i i' : Option String) (r r' : String)
    (hi : Char.ofNat 39 ∉ (pyStr i).data) (hi' : Char.ofNat 39 ∉ (pyStr i').data)
    (h : missingFileMsg i r = missingFileMsg i' r') :
    pyStr i = pyStr i' ∧ r = r' := by
  have hd := congrArg String.data h
  unfold missingFileMsg at hd
  simp only [String.data_append, List.append_assoc, List.cons_append,
    List.nil_append, List.cons.injEq, true_and] at hd
  obtain ⟨h1, h2⟩ := sep_split _ _ _ _ _ hi hi' hd
  refine ⟨String.ext h1, ?_⟩
  simp only [List.cons.injEq, true_and] at h2
  exact String.ext (List.append_cancel_right h2)

/-- The two error-message families never collide (their fixed prefixes differ
in the first character). -/
theorem brokenLinkMsg_ne_missingFileMsg (i j : Option String) (r h : String) :
    brokenLinkMsg i r ≠ missingFileMsg j h := by
  intro he
  have hd := congrArg String.data he
  unfold brokenLinkMsg missingFileMsg at hd
  simp only [String.data_append, List.append_assoc, List.cons_append,
    List.nil_append, List.cons.injEq] at hd
  exact absurd hd.1 (by decide)

theorem count_filterMap_eq_countP {α β : Type} [DecidableEq β]
    (f : α → Option β) (b : β) :
    ∀ l : List α, (l.filterMap f).count b = l.countP (fun a => f a == some b)
  | [] => rfl
  | a :: t => by
    rw [List.filterMap_cons, List.countP_cons]
    rcases hfa : f a with _ | c
    · simp only [hfa]
      rw [count_filterMap_eq_countP f b t]
      simp
    · simp only [hfa]
      rw [List.count_cons, count_filterMap_eq_countP f b t]
      by_cases hc : c = b <;> simp [hc]

theorem countP_eq_one_of_unique {α : Type} (p : α → Bool) :
    ∀ (l : List α) (x : α), x ∈ l → p x = true →
      l.Pairwise (fun a b => ¬(p a = true ∧ p b = true)) → l.countP p = 1
  | [], x, hx, _, _ => absurd hx (List.not_mem_nil x)
  | a :: t, x, hx, hpx, hpw => by
    rw [List.countP_cons]
    rcases List.pairwise_cons.mp hpw with ⟨hhead, htail⟩
    rcases List.mem_cons.mp hx with rfl | hx2
    · have h0 : t.countP p = 0 :=
        List.countP_eq_zero.mpr (fun b hb hpb => hhead b hb ⟨hpx, hpb⟩)
      rw [h0, hpx]
      simp
    · have h1 : t.countP p = 1 := countP_eq_one_of_unique p t x hx2 hpx htail
      have hpa : p a = false := by
        rcases hpa : p a with _ | _
        · rfl
        · exact absurd ⟨hpa, hpx⟩ (hhead x hx2)
      rw [h1, hpa]
      simp

theorem eq_of_pairwise_key {α κ : Type} (key : α → κ) :
    ∀ (l : List α) (a b : α), l.Pairwise (fun x y => key x ≠ key y) →
      a ∈ l → b ∈ l → key a = key b → a = b
  | [], a, b, _, ha, _, _ => absurd ha (List.not_mem_nil a)
  | c :: t, a, b, hpw, ha, hb, hk => by
    rcases List.pairwise_cons.mp hpw with ⟨hhead, htail⟩
    rcases List.mem_cons.mp ha with rfl | ha2
    · rcases List.mem_cons.mp hb with rfl | hb2
      · rfl
      · exact absurd hk (hhead b hb2)
    · rcases List.mem_cons.mp hb with rfl | hb2
      · exact absurd hk.symm (hhead a ha2)
      · exact eq_of_pairwise_key key t a b htail ha2 hb2 hk

/-- The count of an ERROR finding over the whole findings list is the sum of
its counts over the two validation loops (the leading INFO finding never
matches an ERROR finding). -/
theorem count_validate_error (zip_files : List String) (root : XmlElem)
    (ns : NSMap) (m : String) :
    (validate_scorm_package zip_files root ns).count (⟨"ERROR", m⟩ : Finding) =
      ((itemNodes root ns).filterMap
          (brokenLinkCheck (resourceIds root ns))).count ⟨"ERROR", m⟩ +
      ((resourceNodes root ns).filterMap
          (missingFileCheck zip_files)).count ⟨"ERROR", m⟩ := by
  unfold validate_scorm_package
  rw [List.count_cons, List.count_append]
  have hne : ((⟨"INFO", "Detected Version: " ++
      (if (findDesc root (qual ns.imsss "sequencing")).isSome
       then "SCORM 2004" else "SCORM 1.2") ++ "."⟩ : Finding) ==
      (⟨"ERROR", m⟩ : Finding)) = false := by
    simp
  rw [hne]
  simp

/-- No missing-file finding is ever a broken-link finding. -/
theorem count_missing_of_broken_zero (zip_files : List String) (root : XmlElem)
    (ns : NSMap) (i : Option String) (r : String) :
    ((resourceNodes root ns).filterMap (missingFileCheck zip_files)).count
      (⟨"ERROR", brokenLinkMsg i r⟩ : Finding) = 0 := by
  rw [List.count_eq_zero]
  intro hmem2
  rcases List.mem_filterMap.mp hmem2 with ⟨a, _, ha⟩
  rcases missingFileCheck_eq_some _ _ _ ha with ⟨h0, _, _, _, hfe⟩
  rw [Finding.mk.injEq] at hfe
  exact brokenLinkMsg_ne_missingFileMsg _ _ _ _ hfe.2

/-- C2: for every item element (with a rendered identifier free of single
quotes and pairwise distinct from the other items' rendered identifiers)
carrying a truthy `identifierref` that does not occur among the manifest's
resource identifiers, the Validator emits exactly one ERROR finding, and that
finding is the broken-link message naming both the item's identifier and the
missing reference; when the reference does resolve, no such finding occurs. -/
theorem validator_broken_link_exact (zip_files : List String) (root : XmlElem)
    (ns : NSMap) (it : XmlElem) (ref : String)
    (hmem : it ∈ itemNodes root ns)
    (hq : ∀ a ∈ itemNodes root ns,
      Char.ofNat 39 ∉ (pyStr (attrGet a "identifier")).data)
    (huniq : (itemNodes root ns).Pairwise
      (fun a b => pyStr (attrGet a "identifier") ≠ pyStr (attrGet b "identifier")))
    (href : attrGet it "identifierref" = some ref) (hne : ref ≠ "") :
    (some ref ∉ resourceIds root ns →
      (validate_scorm_package zip_files root ns).count
        ⟨"ERROR", brokenLinkMsg (attrGet it "identifier") ref⟩ = 1) ∧
    (some ref ∈ resourceIds root ns →
      (validate_scorm_package zip_files root ns).count
        ⟨"ERROR", brokenLinkMsg (attrGet it "identifier") ref⟩ = 0) := by
  constructor
  · intro hnotin
    rw [count_validate_error, count_missing_of_broken_zero,
      count_filterMap_eq_countP]
    have hone : (itemNodes root ns).countP
        (fun a => brokenLinkCheck (resourceIds root ns) a ==
          some ⟨"ERROR", brokenLinkMsg (attrGet it "identifier") ref⟩) = 1 := by
      apply countP_eq_one_of_unique _ _ it hmem
      · simp only [beq_iff_eq]
        unfold brokenLinkCheck
        simp only [href]
        rw [if_pos ⟨hne, hnotin⟩]
      · apply List.Pairwise.imp_of_mem ?_ huniq
        intro a b hain hbin hR hab
        rcases hab with ⟨hpa, hpb⟩
        simp only [beq_iff_eq] at hpa hpb
        rcases brokenLinkCheck_eq_some _ _ _ hpa with ⟨ra, _, _, _, hta⟩
        rcases brokenLinkCheck_eq_some _ _ _ hpb with ⟨rb, _, _, _, htb⟩
        rw [Finding.mk.injEq] at hta htb
        have hmsg : brokenLinkMsg (attrGet a "identifier") ra =
            brokenLinkMsg (attrGet b "identifier") rb := by
          rw [← hta.2, ← htb.2]
        exact hR (brokenLinkMsg_inj _ _ _ _ (hq a hain) (hq b hbin) hmsg).1
    rw [hone]
  · intro hin
    rw [count_validate_error, count_missing_of_broken_zero,
      count_filterMap_eq_countP]
    have hzero : (itemNodes root ns).countP
        (fun a => brokenLinkCheck (resourceIds root ns) a ==
          some ⟨"ERROR", brokenLinkMsg (attrGet it "identifier") ref⟩) = 0 := by
      apply List.countP_eq_zero.mpr
      intro a hain hpa
      simp only [beq_iff_eq] at hpa
      rcases brokenLinkCheck_eq_some _ _ _ hpa with ⟨ra, _, _, hnotina, hta⟩
      rw [Finding.mk.injEq] at hta
      have hra := (brokenLinkMsg_inj _ _ _ _ (hq it hmem) (hq a hain) hta.2).2
      rw [← hra] at hnotina
      exact hnotina hin
    rw [hzero]

/-- Witness for C2 at a concrete manifest whose single item references the
non-existent resource `RES9`: exactly one broken-link ERROR finding. -/
theorem validator_broken_link_exact_witness :
    some "RES9" ∉ resourceIds exBrokenRef (build_ns exBrokenRef) ∧
    (validate_scorm_package ["index.html"] exBrokenRef
        (build_ns exBrokenRef)).count
      ⟨"ERROR", brokenLinkMsg (some "ITEM1") "RES9"⟩ = 1 := by
  have h := validator_broken_link_exact ["index.html"] exBrokenRef
    (build_ns exBrokenRef)
    (XmlElem.mk "item" [("identifier", "ITEM1"), ("identifierref", "RES9")]
      none [])
    "RES9" (by decide) (by decide) (by decide) (by decide) (by decide)
  exact ⟨by decide, h.1 (by decide)⟩

/-- No broken-link finding is ever a missing-file finding. -/
theorem count_broken_of_missing_zero (root : XmlElem) (ns : NSMap)
    (i : Option String) (r : String) :
    ((itemNodes root ns).filterMap (brokenLinkCheck (resourceIds root ns))).count
      (⟨"ERROR", missingFileMsg i r⟩ : Finding) = 0 := by
  rw [List.count_eq_zero]
  intro hmem2
  rcases List.mem_filterMap.mp hmem2 with ⟨a, _, ha⟩
  rcases brokenLinkCheck_eq_some _ _ _ ha with ⟨r0, _, _, _, hfe⟩
  rw [Finding.mk.injEq] at hfe
  exact brokenLinkMsg_ne_missingFileMsg _ _ _ _ hfe.2.symm

/-- C3: for every resource element (with a rendered identifier free of single
quotes and pairwise distinct from the other resources' rendered identifiers)
with a truthy href whose backslash-normalized path is not in the archive's
file listing, the Validator emits exactly one ERROR finding, and that finding
is the missing-file message naming the resource identifier and the missing
path; a resource whose normalized href is present, or that has no truthy
href, produces no such finding. -/
theorem validator_missing_file_exact (zip_files : List String) (root : XmlElem)
    (ns : NSMap) (rs : XmlElem)
    (hmem : rs ∈ resourceNodes root ns)
    (hq : ∀ a ∈ resourceNodes root ns,
      Char.ofNat 39 ∉ (pyStr (attrGet a "identifier")).data)
    (huniq : (resourceNodes root ns).Pairwise
      (fun a b => pyStr (attrGet a "identifier") ≠ pyStr (attrGet b "identifier"))) :
    (∀ h0, attrGet rs "href" = some h0 → h0 ≠ "" → normSlash h0 ∉ zip_files →
      (validate_scorm_package zip_files root ns).count
        ⟨"ERROR", missingFileMsg (attrGet rs "identifier") h0⟩ = 1) ∧
    (∀ h1, (∀ h0, attrGet rs "href" = some h0 → h0 = "" ∨ normSlash h0 ∈ zip_files) →
      (validate_scorm_package zip_files root ns).count
        ⟨"ERROR", missingFileMsg (attrGet rs "identifier") h1⟩ = 0) := by
  constructor
  · intro h0 hh0 hne0 hnotin0
    rw [count_validate_error, count_broken_of_missing_zero,
      count_filterMap_eq_countP]
    have hone : (resourceNodes root ns).countP
        (fun a => missingFileCheck zip_files a ==
          some ⟨"ERROR", missingFileMsg (attrGet rs "identifier") h0⟩) = 1 := by
      apply countP_eq_one_of_unique _ _ rs hmem
      · simp only [beq_iff_eq]
        unfold missingFileCheck
        simp only [hh0]
        rw [if_pos ⟨hne0, hnotin0⟩]
      · apply List.Pairwise.imp_of_mem ?_ huniq
        intro a b hain hbin hR hab
        rcases hab with ⟨hpa, hpb⟩
        simp only [beq_iff_eq] at hpa hpb
        rcases missingFileCheck_eq_some _ _ _ hpa with ⟨ra, _, _, _, hta⟩
        rcases missingFileCheck_eq_some _ _ _ hpb with ⟨rb, _, _, _, htb⟩
        rw [Finding.mk.injEq] at hta htb
        have hmsg : missingFileMsg (attrGet a "identifier") ra =
            missingFileMsg (attrGet b "identifier") rb := by
          rw [← hta.2, ← htb.2]
        exact hR (missingFileMsg_inj _ _ _ _ (hq a hain) (hq b hbin) hmsg).1
    rw [hone]
  · intro h1 hcond
    rw [count_validate_error, count_broken_of_missing_zero,
      count_filterMap_eq_countP]
    have hzero : (resourceNodes root ns).countP
        (fun a => missingFileCheck zip_files a ==
          some ⟨"ERROR", missingFileMsg (attrGet rs "identifier") h1⟩) = 0 := by
      apply List.countP_eq_zero.mpr
      intro a hain hpa
      simp only [beq_iff_eq] at hpa
      rcases missingFileCheck_eq_some _ _ _ hpa with ⟨ha0, hrefa, hnea, hnotina, hta⟩
      rw [Finding.mk.injEq] at hta
      have hinj := missingFileMsg_inj _ _ _ _ (hq rs hmem) (hq a hain) hta.2
      have haa : a = rs :=
        eq_of_pairwise_key (fun x => pyStr (attrGet x "identifier"))
          (resourceNodes root ns) a rs huniq hain hmem hinj.1.symm
      rw [haa] at hrefa
      rcases hcond ha0 hrefa with hc | hc
      · exact hnea hc
      · exact hnotina hc
    rw [hzero]

/-- Witness for C3 at a concrete manifest whose resource points (with a
backslash path) at `content\index.html` while the archive only holds
`other.html`: exactly one missing-file ERROR finding. -/
theorem validator_missing_file_exact_witness :
    normSlash "content\x5cindex.html" ∉ ["other.html"] ∧
    (validate_scorm_package ["other.html"] exMissingFile
        (build_ns exMissingFile)).count
      ⟨"ERROR", missingFileMsg (some "RES1") "content\x5cindex.html"⟩ = 1 := by
  have h := validator_missing_file_exact ["other.html"] exMissingFile
    (build_ns exMissingFile)
    (XmlElem.mk "resource" [("identifier", "RES1"),
      ("href", "content\x5cindex.html")] none [])
    (by decide) (by decide) (by decide)
  exact ⟨by decide, h.1 "content\x5cindex.html" (by decide) (by decide) (by decide)⟩

/-- Witness for C1 at the standard IMS content-packaging namespace and at an
unqualified root tag. -/
theorem imscp_namespace_resolution_witness :
    detect_imscp "\x7bhttp://www.imsglobal.org/xsd/imscp_v1p1\x7dmanifest" =
      "http://www.imsglobal.org/xsd/imscp_v1p1" ∧
    detect_imscp "manifest" = "" :=
  imscp_namespace_resolution "http://www.imsglobal.org/xsd/imscp_v1p1"
    "manifest" "manifest"
    "\x7bhttp://www.imsglobal.org/xsd/imscp_v1p1\x7dmanifest"
    (by decide) (by decide) (by decide)

/-- Witness for C10 (amended) at a concrete item with a broken reference. -/
theorem structure_builder_tolerates_broken_refs_witness :
    (∃ node ∈ parse_items (build_ns exNoOrg) exResList exOrgParent,
        node.identifier = attrGet exItemBroken "identifier" ∧
        node.resource_href = dictLookup exResList
          (attrGet exItemBroken "identifierref")) ∧
    (∀ ref, (∀ kv ∈ exResList, kv.1 ≠ some ref) →
      dictLookup exResList (some ref) = none) ∧
    ((∀ kv ∈ exResList, kv.1 ≠ none) → dictLookup exResList none = none) ∧
    (∀ idf ti subs rest pt,
        flatten_structure (ItemNode.mk idf ti none subs :: rest) pt =
          flatten_structure subs (pt ++ ti ++ " -> ") ++
            flatten_structure rest pt) :=
  structure_builder_tolerates_broken_refs (build_ns exNoOrg) exResList
    exOrgParent exItemBroken (by decide) (by decide)
